import Mathlib

/-!
Verification development for the audio-replayer playback core.

The definitions below are a shallow embedding of the playback/loop
orchestration code: the `finish`/`region-out` handlers and the
track-change reset of `Player.tsx`, and the playlist operations
(weighted pick, recency history, previous/remove) of the app component.
JavaScript numbers are modelled as `Int` (loop counters, times) and
`Rat` (playback rates, random draws, region bounds); array indexing and
the `|| 1.0` falsy default are modelled explicitly.
-/

namespace AudioReplayer

/-- A playlist entry: `id` (unique, stable), object `url`, display
`name`, and `priority` (1, 2 or 3 in the UI, any number in storage). -/
structure Track where
  id : String
  url : String
  name : String
  priority : Int
deriving DecidableEq, Repr

/-- Bounds of a user-drawn waveform region (`region.start` / `region.end`).
The source field named `end` is rendered here as `stop`. -/
structure RegionBounds where
  start : Rat
  stop : Rat
deriving DecidableEq, Repr

/-- Process-wide playback configuration: `loopCount` and the per-pass
`playbackSpeeds` list. -/
structure Config where
  loopCount : Int
  playbackSpeeds : List Rat
deriving DecidableEq, Repr

/-- The per-track playback session state read by the transport event
handlers.  `activeRegion` models `stateRef.current.activeRegion` (the
mutable ref snapshot the handlers consult), `isHandlingFinish` models
`isHandlingFinishRef.current`, and `lastRegionOutTime` models
`lastRegionOutTimeRef.current` (a `Date.now()` millisecond stamp). -/
structure PlayerState where
  currentLoop : Int
  isLoopLocked : Bool
  activeRegion : Option RegionBounds
  regionLoop : Int
  isHandlingFinish : Bool
  lastRegionOutTime : Int
deriving DecidableEq, Repr

/-- JavaScript array indexing `arr[i]` for a possibly negative index:
`none` when the index is out of range. -/
def jsIndex (l : List Rat) (i : Int) : Option Rat :=
  if 0 ≤ i then l.get? i.toNat else none

/-- The JavaScript expression `x || d` for a possibly-absent number `x`:
the default is taken both when the index was out of range (`undefined`)
and when the stored value is `0` (falsy). -/
def jsOrDefault (x : Option Rat) (d : Rat) : Rat :=
  match x with
  | none => d
  | some v => if v = 0 then d else v

/-- Outcome of one `finish` event dispatch. -/
inductive FinishOutcome where
  /-- the re-entrancy guard was already set; the event is dropped. -/
  | ignoredGuard
  /-- a region is active, so region-drill owns looping; dropped. -/
  | ignoredRegion
  /-- the track is restarted from time 0 at the given rate. -/
  | restart (rate : Rat)
  /-- the pass budget is exhausted: `onTrackEnd` is signaled upward. -/
  | trackEnd
deriving DecidableEq, Repr

/-- The transport `finish` handler (`ws.on('finish')` in `Player.tsx`),
run to its settled state: the queued restart microtask clears the
re-entrancy guard when `play()` settles, so in the `restart` outcome the
guard is already cleared; in the `trackEnd` outcome the source keeps the
guard set (to be cleared by the track-change effect). -/
def onFinish (cfg : Config) (s : PlayerState) : PlayerState × FinishOutcome :=
  if s.isHandlingFinish then (s, .ignoredGuard)
  else
    let s1 : PlayerState := { s with isHandlingFinish := true }
    match s1.activeRegion with
    | some _ => ({ s1 with isHandlingFinish := false }, .ignoredRegion)
    | none =>
      if s1.isLoopLocked || decide (s1.currentLoop < cfg.loopCount - 1) then
        let nextLoopIndex := if s1.isLoopLocked then s1.currentLoop else s1.currentLoop + 1
        let speedIndex := min nextLoopIndex (cfg.loopCount - 1)
        let nextSpeed := jsOrDefault (jsIndex cfg.playbackSpeeds speedIndex) 1
        let s2 : PlayerState :=
          if s1.isLoopLocked then s1 else { s1 with currentLoop := s1.currentLoop + 1 }
        ({ s2 with isHandlingFinish := false }, .restart nextSpeed)
      else
        (s1, .trackEnd)

/-- The track-change effect (`useEffect` on `currentTrackIndex`):
reset `currentLoop`, the finish guard, `regionLoop` and the loop lock;
when the regions plugin ref is populated (it always is after mount),
clear the regions and the active-region state. -/
def resetOnTrackChange (pluginPresent : Bool) (s : PlayerState) : PlayerState :=
  let s1 : PlayerState := { s with
    currentLoop := 0
    isHandlingFinish := false
    regionLoop := 0
    isLoopLocked := false }
  if pluginPresent then { s1 with activeRegion := none } else s1

/-- The session state of a freshly mounted player before any event. -/
def initialSession : PlayerState :=
  { currentLoop := 0
    isLoopLocked := false
    activeRegion := none
    regionLoop := 0
    isHandlingFinish := false
    lastRegionOutTime := 0 }

/-- Run a sequence of `finish` events against one track.  Each list entry
is the state of the loop-lock toggle at the moment that event fires (the
user may toggle the lock between events). -/
def runFinishes (cfg : Config) (s : PlayerState) (locks : List Bool) : PlayerState :=
  locks.foldl (fun st b => (onFinish cfg { st with isLoopLocked := b }).1) s

/-- Commands the region-out follow-up can issue to the transport. -/
inductive TransportCmd where
  | setTime (t : Rat)
  | play
deriving DecidableEq, Repr

/-- The body of the `setTimeout` scheduled by the `region-out` handler:
it re-checks `stateRef.current.activeRegion` and, when a region is still
active, seeks to the (closure-captured) region start and resumes play if
the audio element is paused; when the region was cleared meanwhile it
issues no command at all. -/
def regionOutFollowUp (s : PlayerState) (paused : Bool) (region : RegionBounds) :
    List TransportCmd :=
  match s.activeRegion with
  | none => []
  | some _ => [TransportCmd.setTime region.start] ++ (if paused then [TransportCmd.play] else [])

/-- The atomic steps of `handleClearRegion`, in source order. -/
inductive ClearStep where
  /-- `stateRef.current.activeRegion = null` (the synchronous ref write). -/
  | setRefRegionNone
  /-- `regionsPluginRef.current?.clearRegions()` (the collaborator clear). -/
  | clearRegionsCmd
  /-- `setActiveRegion(null)` (the React state update). -/
  | setStateRegionNone
  /-- `setRegionLoop(0)`. -/
  | setRegionLoopZero
deriving DecidableEq, Repr

/-- The step sequence of `handleClearRegion`, in the order the source
performs them. -/
def handleClearRegionSteps : List ClearStep :=
  [ClearStep.setRefRegionNone, ClearStep.clearRegionsCmd,
   ClearStep.setStateRegionNone, ClearStep.setRegionLoopZero]

/-- Effect of one `handleClearRegion` step on the handler-visible session
state (the `stateRef` view).  The React state update eventually syncs the
ref to the same `none` value; the collaborator clear does not touch the
session state. -/
def execClearStep (s : PlayerState) : ClearStep → PlayerState
  | ClearStep.setRefRegionNone => { s with activeRegion := none }
  | ClearStep.clearRegionsCmd => s
  | ClearStep.setStateRegionNone => { s with activeRegion := none }
  | ClearStep.setRegionLoopZero => { s with regionLoop := 0 }

/-- Run a sequence of `handleClearRegion` steps. -/
def execClearSteps (s : PlayerState) (steps : List ClearStep) : PlayerState :=
  steps.foldl execClearStep s

/-- The `region-out` handler (`wsRegions.on('region-out')`), state part:
debounce against `lastRegionOutTime` (updated only when the signal is not
debounced), then increment `regionLoop` only when a region is still
active.  `now` is the `Date.now()` stamp of the signal. -/
def onRegionOut (s : PlayerState) (now : Int) : PlayerState :=
  if now - s.lastRegionOutTime < 100 then s
  else
    let s1 : PlayerState := { s with lastRegionOutTime := now }
    match s1.activeRegion with
    | none => s1
    | some _ => { s1 with regionLoop := s1.regionLoop + 1 }

/-- Run a sequence of `region-out` signals with the given timestamps. -/
def runRegionOuts (s : PlayerState) (times : List Int) : PlayerState :=
  times.foldl onRegionOut s

/-- JavaScript `Array.prototype.findIndex`: first matching index, `-1`
when no element matches. -/
def jsFindIndex (p : Track → Bool) (l : List Track) : Int :=
  match l.findIdx? p with
  | some k => (k : Int)
  | none => -1

/-- The priority weight table of `pickNextWeightedTrack` (`getWeight`):
`3 → 9`, `2 → 3`, `1 → 1`, anything else → `3`. -/
def getWeight (p : Int) : Rat :=
  if p = 3 then 9
  else if p = 2 then 3
  else if p = 1 then 1
  else 3

/-- The source's `candidates.reduce((sum, track) => sum + getWeight(track.priority), 0)`. -/
def totalWeight (cands : List Track) : Rat :=
  cands.foldl (fun sum t => sum + getWeight t.priority) 0

/-- The selection loop of `pickNextWeightedTrack`: subtract each
candidate's weight from the running value and stop at the first candidate
where the remainder becomes `≤ 0`; `none` when the list is exhausted
without triggering. -/
def selectLoop (r : Rat) : List Track → Option Track
  | [] => none
  | t :: rest =>
    if r - getWeight t.priority ≤ 0 then some t
    else selectLoop (r - getWeight t.priority) rest

/-- The source's `pickNextWeightedTrack(currentId)` with the random draw made
explicit: `randomValue` stands for `Math.random() * totalWeight`, the
draw already scaled to `[0, totalWeight)`.  With at most one track the
source returns index 0; otherwise it filters out the current id, runs the
subtraction loop (starting from `candidates[0]` as the default
selection), and returns the playlist index of the selected id. -/
def pickNextWeightedTrack (playlist : List Track) (currentId : Option String)
    (randomValue : Rat) : Int :=
  if playlist.length = 0 then 0
  else if playlist.length = 1 then 0
  else
    let candidates := playlist.filter (fun t => decide (some t.id ≠ currentId))
    match candidates.head? with
    | none => 0
    | some c0 =>
      let selected := (selectLoop randomValue candidates).getD c0
      jsFindIndex (fun t => t.id = selected.id) playlist

/-- Claim-side running total for the weighted selection: the summed
weight of the first `k` candidates.  `r - prefixWeight cands (k+1) ≤ 0`
says the running remainder becomes `≤ 0` at candidate `k`. -/
def prefixWeight (cands : List Track) (k : Nat) : Rat :=
  totalWeight (cands.take k)

/-- The source's `addToHistory(trackId)`: prepend the id to the history with every
previous occurrence of it filtered out, then keep the first 50 entries. -/
def addToHistory (trackId : String) (prev : List String) : List String :=
  (trackId :: prev.filter (fun id => decide (id ≠ trackId))).take 50

/-- Run a sequence of `addToHistory` calls from the empty history. -/
def runHistory (calls : List String) : List String :=
  calls.foldl (fun h id => addToHistory id h) []

/-- The source's `handlePreviousTrack`, index part (the `addToHistory` side effect does
not feed into the index chosen, because the handler reads the history
snapshot captured at render time).  Scan the history for the first id
that differs from the current track's id and still exists in the
playlist; on success use its playlist index (the source re-checks
`findIndex !== -1` before committing); otherwise fall back to
`(prev - 1 + length) % length`.  With an empty playlist the source
returns without changing the index. -/
def handlePreviousTrack (playlist : List Track) (currentTrackIndex : Nat)
    (recentHistory : List String) : Nat :=
  if playlist.length = 0 then currentTrackIndex
  else
    let currentId : Option String := (playlist.get? currentTrackIndex).map Track.id
    let viaHistory : Option Nat :=
      if 0 < recentHistory.length then
        match recentHistory.find?
            (fun id => decide (some id ≠ currentId) && playlist.any (fun t => t.id = id)) with
        | some pid =>
          match playlist.findIdx? (fun t => t.id = pid) with
          | some k => some k
          | none => none
        | none => none
      else none
    match viaHistory with
    | some k => k
    | none => (((currentTrackIndex : Int) - 1 + playlist.length) % playlist.length).toNat

/-- The source's `handleRemoveTrack(idToRemove)`: drop every entry with the removed id;
if the removed id was the current track's id, clamp the index (or reset
to 0 on an empty result); otherwise remap the index to the current id's
position in the shrunken playlist, leaving it unchanged when that id is
(impossibly) absent.  Returns the new playlist and the new index. -/
def handleRemoveTrack (playlist : List Track) (currentTrackIndex : Nat)
    (idToRemove : String) : List Track × Nat :=
  let currentTrackId : Option String := (playlist.get? currentTrackIndex).map Track.id
  let newPlaylist := playlist.filter (fun t => decide (t.id ≠ idToRemove))
  if some idToRemove = currentTrackId then
    if newPlaylist.length = 0 then (newPlaylist, 0)
    else (newPlaylist, min currentTrackIndex (newPlaylist.length - 1))
  else
    match newPlaylist.findIdx? (fun t => some t.id = currentTrackId) with
    | some k => (newPlaylist, k)
    | none => (newPlaylist, currentTrackIndex)

/-- Sample high-priority track (spec scenario 2's track A). -/
def trA : Track := { id := "a", url := "blob:a", name := "A", priority := 3 }

/-- Sample medium-priority track (spec scenario 2's track B). -/
def trB : Track := { id := "b", url := "blob:b", name := "B", priority := 2 }

/-- Sample low-priority track (spec scenario 2's track C). -/
def trC : Track := { id := "c", url := "blob:c", name := "C", priority := 1 }

/-! ## Helper lemmas -/

/-- Closed form of the `finish` handler when the guard is clear and no
region is active. -/
theorem onFinish_eq (cfg : Config) (s : PlayerState)
    (hguard : s.isHandlingFinish = false) (hregion : s.activeRegion = none) :
    onFinish cfg s =
      if s.isLoopLocked || decide (s.currentLoop < cfg.loopCount - 1) then
        ({ s with
            currentLoop := if s.isLoopLocked then s.currentLoop else s.currentLoop + 1,
            isHandlingFinish := false },
         FinishOutcome.restart (jsOrDefault (jsIndex cfg.playbackSpeeds
           (min (if s.isLoopLocked then s.currentLoop else s.currentLoop + 1)
                (cfg.loopCount - 1))) 1))
      else
        ({ s with isHandlingFinish := true }, FinishOutcome.trackEnd) := by
  unfold onFinish
  rw [hguard]
  cases hl : s.isLoopLocked <;>
    simp [hregion, hl]

/-! ## Claims -/

/-- C3 counterexample: with `loopCount = 1` on a fresh session, the
`finish` handler signals track-end but leaves the re-entrancy guard SET
(`isHandlingFinish = true`), contrary to the claim that the guard is
cleared before signaling track-end. -/
theorem c3_counterexample :
    (onFinish { loopCount := 1, playbackSpeeds := [1] } initialSession).2 =
        FinishOutcome.trackEnd ∧
    (onFinish { loopCount := 1, playbackSpeeds := [1] } initialSession).1.isHandlingFinish =
        true := by
  constructor <;> rfl

/-- C3 (amended): when a `finish` event finds the pass budget exhausted
and the session not loop-locked, the handler KEEPS the re-entrancy guard
set while signaling track-end upward; the guard is cleared later by the
track-change reset, not by this branch. -/
theorem c3_exhausted_keeps_guard (cfg : Config) (s : PlayerState)
    (hguard : s.isHandlingFinish = false) (hregion : s.activeRegion = none)
    (hlock : s.isLoopLocked = false) (hdone : ¬ s.currentLoop < cfg.loopCount - 1) :
    (onFinish cfg s).2 = FinishOutcome.trackEnd ∧
    (onFinish cfg s).1.isHandlingFinish = true := by
  rw [onFinish_eq cfg s hguard hregion]
  simp [hlock, hdone]

/-- C3 witness: the amended theorem applied to a fresh session with
`loopCount = 1`. -/
theorem c3_exhausted_keeps_guard_witness :
    (onFinish { loopCount := 1, playbackSpeeds := [1] }
        { initialSession with currentLoop := 0 }).2 = FinishOutcome.trackEnd ∧
    (onFinish { loopCount := 1, playbackSpeeds := [1] }
        { initialSession with currentLoop := 0 }).1.isHandlingFinish = true :=
  c3_exhausted_keeps_guard _ _ rfl rfl rfl (by decide)

/-- C4: whenever the current track changes (with the regions plugin
mounted, as it always is after the init effect), the session is fully
reset regardless of prior state: `currentLoop = 0`, `regionLoop = 0`,
`isLoopLocked = false`, the active region is cleared, and the
restart-in-flight latch `isHandlingFinish` is unconditionally cleared
even if a prior restart never resolved. -/
theorem c4_track_change_reset (s : PlayerState) :
    (resetOnTrackChange true s).currentLoop = 0 ∧
    (resetOnTrackChange true s).regionLoop = 0 ∧
    (resetOnTrackChange true s).isLoopLocked = false ∧
    (resetOnTrackChange true s).activeRegion = none ∧
    (resetOnTrackChange true s).isHandlingFinish = false := by
  simp [resetOnTrackChange]

/-- C1 counterexample: with `loopCount = 2` and `playbackSpeeds = [0, 0]`
a fresh session restarts at rate `1`, although
`playbackSpeeds[min(nextPassIndex, loopCount-1)] = playbackSpeeds[1] = 0`
is in range — the `|| 1.0` fallback also fires on a stored speed of `0`
(JS falsy), not only when the index is out of range as the claim states. -/
theorem c1_counterexample :
    (onFinish { loopCount := 2, playbackSpeeds := [0, 0] } initialSession).2 =
        FinishOutcome.restart 1 ∧
    jsIndex [0, 0] (min (0 + 1) (2 - 1)) = some 0 ∧ (1 : Rat) ≠ 0 := by
  refine ⟨rfl, rfl, by norm_num⟩

/-- C1 (amended): on a `finish` event with the guard clear and no active
region, playback restarts iff `isLoopLocked ∨ currentLoop < loopCount-1`;
on restart the pass index used for the speed is `currentLoop` when locked
and `currentLoop+1` when not, the new rate is
`playbackSpeeds[min(nextPassIndex, loopCount-1)]` when that entry exists
and is nonzero and `1.0` otherwise (out-of-range index or stored `0`,
both falsy under `||`), and `currentLoop` is incremented exactly when not
locked; when the budget is exhausted, track-end is signaled and
`currentLoop` is unchanged. -/
theorem c1_finish_spec (cfg : Config) (s : PlayerState)
    (hguard : s.isHandlingFinish = false) (hregion : s.activeRegion = none) :
    ((∃ q, (onFinish cfg s).2 = FinishOutcome.restart q) ↔
      (s.isLoopLocked = true ∨ s.currentLoop < cfg.loopCount - 1)) ∧
    ((onFinish cfg s).2 = FinishOutcome.trackEnd ↔
      ¬ (s.isLoopLocked = true ∨ s.currentLoop < cfg.loopCount - 1)) ∧
    (∀ q, (onFinish cfg s).2 = FinishOutcome.restart q →
      (∀ v, jsIndex cfg.playbackSpeeds
          (min (if s.isLoopLocked then s.currentLoop else s.currentLoop + 1)
            (cfg.loopCount - 1)) = some v →
        (v ≠ 0 → q = v) ∧ (v = 0 → q = 1)) ∧
      (jsIndex cfg.playbackSpeeds
          (min (if s.isLoopLocked then s.currentLoop else s.currentLoop + 1)
            (cfg.loopCount - 1)) = none → q = 1)) ∧
    (∀ q, (onFinish cfg s).2 = FinishOutcome.restart q →
      (onFinish cfg s).1.currentLoop =
        (if s.isLoopLocked then s.currentLoop else s.currentLoop + 1)) ∧
    ((onFinish cfg s).2 = FinishOutcome.trackEnd →
      (onFinish cfg s).1.currentLoop = s.currentLoop) := by
  rw [onFinish_eq cfg s hguard hregion]
  by_cases hc : s.isLoopLocked = true ∨ s.currentLoop < cfg.loopCount - 1
  · have hb : (s.isLoopLocked || decide (s.currentLoop < cfg.loopCount - 1)) = true := by
      rcases hc with h | h
      · simp [h]
      · simp [h]
    rw [hb, if_pos rfl]
    dsimp only
    refine ⟨⟨fun _ => hc, fun _ => ⟨_, rfl⟩⟩,
      ⟨fun h => FinishOutcome.noConfusion h, fun h => absurd hc h⟩, ?_, ?_,
      fun h => FinishOutcome.noConfusion h⟩
    · intro q hq
      have hq' : jsOrDefault (jsIndex cfg.playbackSpeeds
          (min (if s.isLoopLocked then s.currentLoop else s.currentLoop + 1)
            (cfg.loopCount - 1))) 1 = q := by
        injection hq
      constructor
      · intro v hv
        rw [← hq', hv]
        constructor
        · intro hv0
          simp [jsOrDefault, hv0]
        · intro hv0
          simp [jsOrDefault, hv0]
      · intro hv
        rw [← hq', hv]
        rfl
    · intro q _
      rfl
  · have hb : (s.isLoopLocked || decide (s.currentLoop < cfg.loopCount - 1)) = false := by
      push_neg at hc
      simp [hc.1, hc.2]
    rw [hb, if_neg (by simp)]
    dsimp only
    refine ⟨⟨?_, fun h => absurd h hc⟩, ⟨fun _ => hc, fun _ => rfl⟩,
      fun q hq => FinishOutcome.noConfusion hq,
      fun q hq => FinishOutcome.noConfusion hq, fun _ => rfl⟩
    rintro ⟨q, hq⟩
    exact FinishOutcome.noConfusion hq

/-- C1 witness: the amended theorem applied to the spec's scenario 1
configuration (`loopCount = 3`, speeds `[1, 1.2, 1.5]`) on a fresh
session. -/
theorem c1_finish_spec_witness :
    ((∃ q, (onFinish { loopCount := 3, playbackSpeeds := [1, 6/5, 3/2] }
        initialSession).2 = FinishOutcome.restart q) ↔
      (initialSession.isLoopLocked = true ∨ initialSession.currentLoop < 3 - 1)) ∧
    ((onFinish { loopCount := 3, playbackSpeeds := [1, 6/5, 3/2] }
        initialSession).2 = FinishOutcome.trackEnd ↔
      ¬ (initialSession.isLoopLocked = true ∨ initialSession.currentLoop < 3 - 1)) ∧
    (∀ q, (onFinish { loopCount := 3, playbackSpeeds := [1, 6/5, 3/2] }
        initialSession).2 = FinishOutcome.restart q →
      (∀ v, jsIndex [1, 6/5, 3/2]
          (min (if initialSession.isLoopLocked then initialSession.currentLoop
            else initialSession.currentLoop + 1) (3 - 1)) = some v →
        (v ≠ 0 → q = v) ∧ (v = 0 → q = 1)) ∧
      (jsIndex [1, 6/5, 3/2]
          (min (if initialSession.isLoopLocked then initialSession.currentLoop
            else initialSession.currentLoop + 1) (3 - 1)) = none → q = 1)) ∧
    (∀ q, (onFinish { loopCount := 3, playbackSpeeds := [1, 6/5, 3/2] }
        initialSession).2 = FinishOutcome.restart q →
      (onFinish { loopCount := 3, playbackSpeeds := [1, 6/5, 3/2] }
        initialSession).1.currentLoop =
        (if initialSession.isLoopLocked then initialSession.currentLoop
          else initialSession.currentLoop + 1)) ∧
    ((onFinish { loopCount := 3, playbackSpeeds := [1, 6/5, 3/2] }
        initialSession).2 = FinishOutcome.trackEnd →
      (onFinish { loopCount := 3, playbackSpeeds := [1, 6/5, 3/2] }
        initialSession).1.currentLoop = initialSession.currentLoop) :=
  c1_finish_spec { loopCount := 3, playbackSpeeds := [1, 6/5, 3/2] } initialSession rfl rfl

/-- One `finish` event (at any momentary lock setting) preserves the
pass-counter bounds. -/
theorem onFinish_currentLoop_bound (cfg : Config) (s : PlayerState)
    (h0 : 0 ≤ s.currentLoop) (h1 : s.currentLoop ≤ cfg.loopCount - 1) :
    0 ≤ (onFinish cfg s).1.currentLoop ∧
    (onFinish cfg s).1.currentLoop ≤ cfg.loopCount - 1 := by
  unfold onFinish
  by_cases hg : s.isHandlingFinish = true
  · simp [hg]
    exact ⟨h0, h1⟩
  · rw [Bool.not_eq_true] at hg
    rw [hg]
    simp only [Bool.false_eq_true, if_false]
    cases hr : s.activeRegion with
    | some r => simpa using ⟨h0, h1⟩
    | none =>
      simp only []
      by_cases hl : s.isLoopLocked = true
      · simp [hl]
        exact ⟨h0, h1⟩
      · rw [Bool.not_eq_true] at hl
        by_cases hlt : s.currentLoop < cfg.loopCount - 1
        · simp [hl, hlt]
          omega
        · simp [hl, hlt]
          exact ⟨h0, h1⟩

/-- C2: for every sequence of `finish` events processed for one track
(the loop lock freely toggled between events), the pass counter
satisfies `0 ≤ currentLoop ≤ loopCount - 1` after each event, provided
`loopCount ≥ 1`.  This holds even across locked events: a locked event
never moves the counter, so the bound needs no locking caveat. -/
theorem c2_currentLoop_invariant (cfg : Config) (locks : List Bool)
    (hlc : 1 ≤ cfg.loopCount) :
    0 ≤ (runFinishes cfg initialSession locks).currentLoop ∧
    (runFinishes cfg initialSession locks).currentLoop ≤ cfg.loopCount - 1 := by
  suffices h : ∀ (l : List Bool) (s : PlayerState),
      0 ≤ s.currentLoop → s.currentLoop ≤ cfg.loopCount - 1 →
      0 ≤ (runFinishes cfg s l).currentLoop ∧
      (runFinishes cfg s l).currentLoop ≤ cfg.loopCount - 1 by
    exact h locks initialSession (by simp [initialSession]) (by simp [initialSession]; omega)
  intro l
  induction l with
  | nil => intro s h0 h1; exact ⟨h0, h1⟩
  | cons b rest ih =>
    intro s h0 h1
    have hstep := onFinish_currentLoop_bound cfg { s with isLoopLocked := b } h0 h1
    exact ih _ hstep.1 hstep.2

/-- C2 witness: the invariant at `loopCount = 2` over a mixed
locked/unlocked event sequence. -/
theorem c2_currentLoop_invariant_witness :
    0 ≤ (runFinishes { loopCount := 2, playbackSpeeds := [1, 11/10] }
        initialSession [false, true, false, false]).currentLoop ∧
    (runFinishes { loopCount := 2, playbackSpeeds := [1, 11/10] }
        initialSession [false, true, false, false]).currentLoop ≤ 2 - 1 :=
  c2_currentLoop_invariant { loopCount := 2, playbackSpeeds := [1, 11/10] }
    [false, true, false, false] (by norm_num)

/-- Every `handleClearRegion` step sequence preserves an already-cleared
active region. -/
theorem execClearSteps_region_none (steps : List ClearStep) (s : PlayerState)
    (h : s.activeRegion = none) : (execClearSteps s steps).activeRegion = none := by
  induction steps generalizing s with
  | nil => exact h
  | cons st rest ih =>
    simp only [execClearSteps, List.foldl_cons] at *
    cases st
    · exact ih _ rfl
    · exact ih _ h
    · exact ih _ rfl
    · exact ih _ h

/-- The region-out follow-up issues no transport command once the active
region is cleared. -/
theorem regionOutFollowUp_none (s : PlayerState) (paused : Bool)
    (region : RegionBounds) (h : s.activeRegion = none) :
    regionOutFollowUp s paused region = [] := by
  unfold regionOutFollowUp
  rw [h]

/-- C5: `handleClearRegion` marks the handler-visible `activeRegion`
`none` (the `stateRef` write) strictly before instructing the
collaborator to clear, and after any prefix of the handler that includes
that first step, a scheduled but not yet executed region-out follow-up
observes `activeRegion = none` and issues no command at all — in
particular no seek into the stale region. -/
theorem c5_clear_region_noop :
    handleClearRegionSteps.indexOf ClearStep.setRefRegionNone <
      handleClearRegionSteps.indexOf ClearStep.clearRegionsCmd ∧
    ∀ (s : PlayerState) (k : Nat) (paused : Bool) (region : RegionBounds),
      1 ≤ k →
      regionOutFollowUp (execClearSteps s (handleClearRegionSteps.take k))
        paused region = [] := by
  constructor
  · decide
  · intro s k paused region hk
    cases k with
    | zero => omega
    | succ k' =>
      have htake : handleClearRegionSteps.take (k' + 1) =
          ClearStep.setRefRegionNone ::
            ([ClearStep.clearRegionsCmd, ClearStep.setStateRegionNone,
              ClearStep.setRegionLoopZero].take k') := by
        simp [handleClearRegionSteps]
      rw [htake]
      refine regionOutFollowUp_none _ paused region ?_
      simp only [execClearSteps, List.foldl_cons]
      exact execClearSteps_region_none _ _ rfl

/-- C5 witness: the full clear sequence run from a session with an active
region, followed by the scheduled region-out callback. -/
theorem c5_clear_region_noop_witness :
    handleClearRegionSteps.indexOf ClearStep.setRefRegionNone <
      handleClearRegionSteps.indexOf ClearStep.clearRegionsCmd ∧
    regionOutFollowUp
      (execClearSteps { initialSession with activeRegion := some ⟨1, 2⟩ }
        (handleClearRegionSteps.take 4)) true ⟨1, 2⟩ = [] :=
  ⟨c5_clear_region_noop.1,
    c5_clear_region_noop.2 { initialSession with activeRegion := some ⟨1, 2⟩ }
      4 true ⟨1, 2⟩ (by norm_num)⟩

/-- C6 counterexample: with an active region and signals at times
`1000, 1050, 1120`, the signal at `1120` arrives 70ms after the previous
signal (at `1050`) yet is NOT ignored — it increments `regionLoop` to 2 —
because the debounce clock is only advanced by signals that are
themselves accepted, so it still reads `1000`. -/
theorem c6_counterexample :
    (runRegionOuts { initialSession with activeRegion := some ⟨1, 2⟩ }
      [1000, 1050, 1120]).regionLoop = 2 ∧
    runRegionOuts { initialSession with activeRegion := some ⟨1, 2⟩ }
        [1000, 1050, 1120] ≠
      runRegionOuts { initialSession with activeRegion := some ⟨1, 2⟩ }
        [1000, 1050] ∧
    (1120 : Int) - 1050 < 100 := by
  refine ⟨rfl, ?_, by norm_num⟩
  decide

/-- C6 (amended): a `regionOut` signal arriving less than 100ms after the
last ACCEPTED (non-debounced) signal is ignored outright; an accepted
signal advances the debounce clock to its own timestamp and, when a
region is still active, increments `regionLoop` — so accepted increments
are at least 100ms apart and duplicates within 100ms of the accepted
crossing signal are dropped. -/
theorem c6_debounce (s : PlayerState) (now : Int) :
    (now - s.lastRegionOutTime < 100 → onRegionOut s now = s) ∧
    (100 ≤ now - s.lastRegionOutTime → s.activeRegion.isSome = true →
      (onRegionOut s now).regionLoop = s.regionLoop + 1 ∧
      (onRegionOut s now).lastRegionOutTime = now) := by
  constructor
  · intro h
    unfold onRegionOut
    rw [if_pos h]
  · intro h hr
    obtain ⟨r, hr'⟩ := Option.isSome_iff_exists.mp hr
    unfold onRegionOut
    rw [if_neg (by omega)]
    simp [hr']

/-- C6 witness: the amended theorem applied at a fresh regioned session,
once inside the debounce window and once outside it. -/
theorem c6_debounce_witness :
    onRegionOut { initialSession with activeRegion := some ⟨1, 2⟩ } 50 =
      { initialSession with activeRegion := some ⟨1, 2⟩ } ∧
    (onRegionOut { initialSession with activeRegion := some ⟨1, 2⟩ }
        1000).regionLoop =
      ({ initialSession with activeRegion := some ⟨1, 2⟩ } :
        PlayerState).regionLoop + 1 ∧
    (onRegionOut { initialSession with activeRegion := some ⟨1, 2⟩ }
        1000).lastRegionOutTime = 1000 :=
  ⟨(c6_debounce { initialSession with activeRegion := some ⟨1, 2⟩ } 50).1
      (by decide),
    (c6_debounce { initialSession with activeRegion := some ⟨1, 2⟩ } 1000).2
      (by decide) rfl⟩

/-- One `addToHistory` call preserves deduplication and enforces the
50-entry cap. -/
theorem addToHistory_invariant (id : String) (h : List String) (hn : h.Nodup) :
    (addToHistory id h).Nodup ∧ (addToHistory id h).length ≤ 50 := by
  constructor
  · refine List.Sublist.nodup (List.take_sublist _ _) ?_
    rw [List.nodup_cons]
    exact ⟨by simp, List.Sublist.nodup (List.filter_sublist _) hn⟩
  · unfold addToHistory
    rw [List.length_take]
    omega

/-- C8: for any sequence of `record` calls the recent history keeps
length ≤ 50 and contains no duplicate ids; each call puts the recorded
id at the front, the rest of the result is the prior history with that
id removed (order preserved), and the recorded id appears nowhere behind
the front. -/
theorem c8_recent_history (calls : List String) (id : String) (h : List String) :
    (runHistory calls).length ≤ 50 ∧ (runHistory calls).Nodup ∧
    (addToHistory id h).head? = some id ∧
    (addToHistory id h).tail.Sublist h ∧
    id ∉ (addToHistory id h).tail := by
  have aux : ∀ (cs : List String) (acc : List String), acc.Nodup → acc.length ≤ 50 →
      (cs.foldl (fun hist i => addToHistory i hist) acc).Nodup ∧
      (cs.foldl (fun hist i => addToHistory i hist) acc).length ≤ 50 := by
    intro cs
    induction cs with
    | nil => intro acc hn hl; exact ⟨hn, hl⟩
    | cons c rest ih =>
      intro acc hn _
      have step := addToHistory_invariant c acc hn
      exact ih _ step.1 step.2
  have htail : (addToHistory id h).tail =
      (h.filter (fun x => decide (x ≠ id))).take 49 := rfl
  refine ⟨(aux calls [] (by simp) (by simp)).2, (aux calls [] (by simp) (by simp)).1,
    rfl, ?_, ?_⟩
  · rw [htail]
    exact (List.take_sublist _ _).trans (List.filter_sublist _)
  · rw [htail]
    intro hmem
    have h1 : id ∈ h.filter (fun x => decide (x ≠ id)) := List.take_subset _ _ hmem
    simp at h1

/-- C9: on a nonempty playlist, `previous` scans the recent history
(most-recent-first) for the first id different from the current track's
id that still exists in the live playlist; when the scan succeeds the
handler lands on that id's playlist index, and when it fails it falls
back to the sequential previous index `(currentIndex - 1 + n) mod n`. -/
theorem c9_previous_track (pl : List Track) (i : Nat) (hist : List String)
    (hpl : 0 < pl.length) :
    (∀ pid, hist.find? (fun id => decide (some id ≠ (pl.get? i).map Track.id) &&
        pl.any (fun t => t.id = id)) = some pid →
      ∃ k, pl.findIdx? (fun t => t.id = pid) = some k ∧
        handlePreviousTrack pl i hist = k) ∧
    (hist.find? (fun id => decide (some id ≠ (pl.get? i).map Track.id) &&
        pl.any (fun t => t.id = id)) = none →
      handlePreviousTrack pl i hist =
        (((i : Int) - 1 + pl.length) % pl.length).toNat) := by
  have hne : ¬ pl.length = 0 := by omega
  constructor
  · intro pid hfind
    have hhist : 0 < hist.length := by
      cases hist
      · simp at hfind
      · simp
    have hp := List.find?_some hfind
    rw [Bool.and_eq_true] at hp
    have hex : ∃ x ∈ pl, (fun t => decide (t.id = pid)) x = true := by
      simpa using List.any_eq_true.mp hp.2
    have hlt : pl.findIdx (fun t => decide (t.id = pid)) < pl.length :=
      List.findIdx_lt_length.mpr hex
    have hk0 : pl.findIdx? (fun t => decide (t.id = pid)) =
        some (pl.findIdx (fun t => decide (t.id = pid))) :=
      List.findIdx?_eq_some_iff_findIdx_eq.mpr ⟨hlt, rfl⟩
    refine ⟨_, hk0, ?_⟩
    unfold handlePreviousTrack
    rw [if_neg hne]
    simp only [if_pos hhist, hfind, hk0]
  · intro hfind
    unfold handlePreviousTrack
    rw [if_neg hne]
    cases hist with
    | nil => simp
    | cons a l =>
      have hg : (0 : Nat) < (a :: l).length := by simp
      simp only [if_pos hg, hfind]

/-- C9 witness: on `[A, B, C]` playing A with history
`[a, x, c, b]`, the scan skips the current id and the dangling id and
lands on track C (index 2). -/
theorem c9_previous_track_witness :
    (∃ k, ([trA, trB, trC] : List Track).findIdx? (fun t => t.id = "c") = some k ∧
      handlePreviousTrack [trA, trB, trC] 0 ["a", "x", "c", "b"] = k) ∧
    handlePreviousTrack [trA, trB, trC] 0 ["a", "x", "c", "b"] = 2 :=
  ⟨(c9_previous_track [trA, trB, trC] 0 ["a", "x", "c", "b"] (by decide)).1
      "c" (by decide), by decide⟩

/-- C10: removing a track whose id differs from the currently playing
track's id leaves the playlist entries other than the removed one
verbatim (the result is exactly the filter dropping the removed id), and
the current index is remapped so that the very same track object remains
current. -/
theorem c10_remove_other_track (pl : List Track) (i : Nat) (idToRemove : String)
    (hi : i < pl.length) (hnodup : (pl.map Track.id).Nodup)
    (hid : idToRemove ≠ (pl.get ⟨i, hi⟩).id) :
    (handleRemoveTrack pl i idToRemove).1 =
      pl.filter (fun t => decide (t.id ≠ idToRemove)) ∧
    ∃ hk : (handleRemoveTrack pl i idToRemove).2 <
        (handleRemoveTrack pl i idToRemove).1.length,
      (handleRemoveTrack pl i idToRemove).1.get
        ⟨(handleRemoveTrack pl i idToRemove).2, hk⟩ = pl.get ⟨i, hi⟩ := by
  have hcur : (pl.get? i).map Track.id = some ((pl.get ⟨i, hi⟩).id) := by
    rw [List.get?_eq_get hi]
    rfl
  have hmem : pl.get ⟨i, hi⟩ ∈ pl.filter (fun t => decide (t.id ≠ idToRemove)) :=
    List.mem_filter.mpr ⟨List.get_mem pl i hi, by simp; exact fun h => hid h.symm⟩
  have hex : ∃ x ∈ pl.filter (fun t => decide (t.id ≠ idToRemove)),
      (fun t => decide (some t.id = some ((pl.get ⟨i, hi⟩).id))) x = true :=
    ⟨pl.get ⟨i, hi⟩, hmem, by simp⟩
  have hlt : (pl.filter (fun t => decide (t.id ≠ idToRemove))).findIdx
        (fun t => decide (some t.id = some ((pl.get ⟨i, hi⟩).id))) <
      (pl.filter (fun t => decide (t.id ≠ idToRemove))).length :=
    List.findIdx_lt_length.mpr hex
  have hk0 : (pl.filter (fun t => decide (t.id ≠ idToRemove))).findIdx?
        (fun t => decide (some t.id = some ((pl.get ⟨i, hi⟩).id))) =
      some ((pl.filter (fun t => decide (t.id ≠ idToRemove))).findIdx
        (fun t => decide (some t.id = some ((pl.get ⟨i, hi⟩).id)))) :=
    List.findIdx?_eq_some_iff_findIdx_eq.mpr ⟨hlt, rfl⟩
  have hres : handleRemoveTrack pl i idToRemove =
      (pl.filter (fun t => decide (t.id ≠ idToRemove)),
        (pl.filter (fun t => decide (t.id ≠ idToRemove))).findIdx
          (fun t => decide (some t.id = some ((pl.get ⟨i, hi⟩).id)))) := by
    unfold handleRemoveTrack
    rw [hcur]
    rw [if_neg (by simp; exact fun h => hid h)]
    simp only [hk0]
  rw [hres]
  refine ⟨rfl, hlt, ?_⟩
  have hprop := List.findIdx_get (w := hlt)
  rw [decide_eq_true_eq, Option.some_inj] at hprop
  have hmem' : (pl.filter (fun t => decide (t.id ≠ idToRemove))).get
      ⟨(pl.filter (fun t => decide (t.id ≠ idToRemove))).findIdx
        (fun t => decide (some t.id = some ((pl.get ⟨i, hi⟩).id))), hlt⟩ ∈ pl :=
    (List.filter_sublist pl).subset (List.get_mem _ _ _)
  exact List.inj_on_of_nodup_map hnodup hmem' (List.get_mem pl i hi) hprop

/-- C10 witness: removing A from `[A, B, C]` while C (index 2) is
playing keeps C current at its new index 1. -/
theorem c10_remove_other_track_witness :
    (handleRemoveTrack [trA, trB, trC] 2 "a").1 =
      ([trA, trB, trC] : List Track).filter (fun t => decide (t.id ≠ "a")) ∧
    ∃ hk : (handleRemoveTrack [trA, trB, trC] 2 "a").2 <
        (handleRemoveTrack [trA, trB, trC] 2 "a").1.length,
      (handleRemoveTrack [trA, trB, trC] 2 "a").1.get
        ⟨(handleRemoveTrack [trA, trB, trC] 2 "a").2, hk⟩ =
        ([trA, trB, trC] : List Track).get ⟨2, by decide⟩ :=
  c10_remove_other_track [trA, trB, trC] 2 "a" (by decide) (by decide) (by decide)

/-- Every priority weight is strictly positive. -/
theorem getWeight_pos (p : Int) : 0 < getWeight p := by
  unfold getWeight
  split_ifs <;> norm_num

/-- Folding the weight sum from an arbitrary accumulator. -/
theorem totalWeight_go (l : List Track) (a : Rat) :
    l.foldl (fun sum t => sum + getWeight t.priority) a = a + totalWeight l := by
  induction l generalizing a with
  | nil => simp [totalWeight]
  | cons t rest ih =>
    have h0 : totalWeight (t :: rest) =
        rest.foldl (fun sum x => sum + getWeight x.priority) (0 + getWeight t.priority) := rfl
    rw [List.foldl_cons, ih, h0, ih (0 + getWeight t.priority)]
    ring

/-- The weight sum of a cons. -/
theorem totalWeight_cons (t : Track) (rest : List Track) :
    totalWeight (t :: rest) = getWeight t.priority + totalWeight rest := by
  have h0 : totalWeight (t :: rest) =
      rest.foldl (fun sum x => sum + getWeight x.priority) (0 + getWeight t.priority) := rfl
  rw [h0, totalWeight_go]
  ring

/-- Unfolding the claim-side running total one candidate at a time. -/
theorem prefixWeight_cons_succ (t : Track) (rest : List Track) (j : Nat) :
    prefixWeight (t :: rest) (j + 1) =
      getWeight t.priority + prefixWeight rest j := by
  simp only [prefixWeight, List.take_succ_cons]
  exact totalWeight_cons _ _

/-- The selection loop, characterised: for a draw within the total
weight it stops at the first candidate where the running remainder
becomes `≤ 0`, and such a candidate always exists. -/
theorem selectLoop_spec (l : List Track) (r : Rat) (h0 : 0 ≤ r)
    (h1 : r < totalWeight l) :
    ∃ (k : Nat) (hk : k < l.length),
      selectLoop r l = some (l.get ⟨k, hk⟩) ∧
      r - prefixWeight l (k + 1) ≤ 0 ∧
      ∀ j, j < k → 0 < r - prefixWeight l (j + 1) := by
  induction l generalizing r with
  | nil =>
    exfalso
    have hz : totalWeight [] = 0 := rfl
    rw [hz] at h1
    linarith
  | cons t rest ih =>
    by_cases hc : r - getWeight t.priority ≤ 0
    · refine ⟨0, by simp, ?_, ?_, ?_⟩
      · simp [selectLoop, hc]
      · rw [prefixWeight_cons_succ]
        have hz : prefixWeight rest 0 = 0 := rfl
        rw [hz]
        linarith
      · intro j hj
        exact absurd hj (Nat.not_lt_zero j)
    · have hlt : 0 < r - getWeight t.priority := not_le.mp hc
      have h1' : r - getWeight t.priority < totalWeight rest := by
        rw [totalWeight_cons] at h1
        linarith
      obtain ⟨k, hk, hsel, hle, hgt⟩ := ih (r - getWeight t.priority) (le_of_lt hlt) h1'
      refine ⟨k + 1, by simpa using Nat.succ_lt_succ hk, ?_, ?_, ?_⟩
      · have hstep : selectLoop r (t :: rest) =
            if r - getWeight t.priority ≤ 0 then some t
            else selectLoop (r - getWeight t.priority) rest := rfl
        rw [hstep, if_neg hc, hsel]
        rfl
      · rw [prefixWeight_cons_succ]
        have hle' := hle
        linarith
      · intro j hj
        cases j with
        | zero =>
          rw [prefixWeight_cons_succ]
          have hz : prefixWeight rest 0 = 0 := rfl
          rw [hz]
          linarith
        | succ j' =>
          rw [prefixWeight_cons_succ]
          have hj' : j' < k := by omega
          have := hgt j' hj'
          linarith

/-- C7: the weighted pick uses weights `3→9, 2→3, 1→1, other→3`; with at
most one track it returns index 0; with two or more tracks and a draw
`r ∈ [0, total)` over the candidates (the playlist minus the current
id), it always selects the first candidate, in playlist order, at which
the running remainder `r - Σ weights` becomes `≤ 0`, and returns that
candidate's id's index in the playlist. -/
theorem c7_weighted_pick :
    (getWeight 3 = 9 ∧ getWeight 2 = 3 ∧ getWeight 1 = 1 ∧
      ∀ p : Int, p ≠ 3 → p ≠ 2 → p ≠ 1 → getWeight p = 3) ∧
    (∀ (pl : List Track) (cur : Option String) (r : Rat),
      pl.length ≤ 1 → pickNextWeightedTrack pl cur r = 0) ∧
    (∀ (pl : List Track) (cur : Option String) (r : Rat),
      2 ≤ pl.length → 0 ≤ r →
      r < totalWeight (pl.filter (fun t => decide (some t.id ≠ cur))) →
      ∃ (k : Nat) (hk : k < (pl.filter (fun t => decide (some t.id ≠ cur))).length),
        r - prefixWeight (pl.filter (fun t => decide (some t.id ≠ cur))) (k + 1) ≤ 0 ∧
        (∀ j, j < k →
          0 < r - prefixWeight (pl.filter (fun t => decide (some t.id ≠ cur))) (j + 1)) ∧
        pickNextWeightedTrack pl cur r =
          jsFindIndex (fun t => t.id =
            ((pl.filter (fun t' => decide (some t'.id ≠ cur))).get ⟨k, hk⟩).id) pl) := by
  refine ⟨⟨rfl, rfl, rfl, ?_⟩, ?_, ?_⟩
  · intro p h3 h2 h1
    unfold getWeight
    rw [if_neg h3, if_neg h2, if_neg h1]
  · intro pl cur r hlen
    unfold pickNextWeightedTrack
    by_cases h0 : pl.length = 0
    · rw [if_pos h0]
    · have h1 : pl.length = 1 := by omega
      rw [if_neg h0, if_pos h1]
  · intro pl cur r h2 hr0 hr1
    obtain ⟨k, hk, hsel, hle, hgt⟩ :=
      selectLoop_spec (pl.filter (fun t => decide (some t.id ≠ cur))) r hr0 hr1
    refine ⟨k, hk, hle, hgt, ?_⟩
    unfold pickNextWeightedTrack
    rw [if_neg (by omega), if_neg (by omega)]
    have hne : pl.filter (fun t => decide (some t.id ≠ cur)) ≠ [] := by
      intro h
      rw [h] at hk
      simp at hk
    obtain ⟨c0, hc0⟩ : ∃ c0,
        (pl.filter (fun t => decide (some t.id ≠ cur))).head? = some c0 := by
      cases hcase : pl.filter (fun t => decide (some t.id ≠ cur)) with
      | nil => exact absurd hcase hne
      | cons x xs => exact ⟨x, rfl⟩
    simp only [hc0, hsel, Option.getD_some]

/-- C7 witness: the degenerate one-track case, and the spec's scenario 2
(`[A:HIGH, B:MED, C:LOW]`, current A, draw `r = 2.5` over total weight 4
selects B). -/
theorem c7_weighted_pick_witness :
    pickNextWeightedTrack [trA] (some "a") 0 = 0 ∧
    (∃ (k : Nat) (hk : k < (([trA, trB, trC] : List Track).filter
        (fun t => decide (some t.id ≠ some "a"))).length),
      (5 / 2 : Rat) - prefixWeight (([trA, trB, trC] : List Track).filter
        (fun t => decide (some t.id ≠ some "a"))) (k + 1) ≤ 0 ∧
      (∀ j, j < k →
        0 < (5 / 2 : Rat) - prefixWeight (([trA, trB, trC] : List Track).filter
          (fun t => decide (some t.id ≠ some "a"))) (j + 1)) ∧
      pickNextWeightedTrack [trA, trB, trC] (some "a") (5 / 2) =
        jsFindIndex (fun t => t.id =
          ((([trA, trB, trC] : List Track).filter
            (fun t' => decide (some t'.id ≠ some "a"))).get ⟨k, hk⟩).id)
          [trA, trB, trC]) :=
  ⟨c7_weighted_pick.2.1 [trA] (some "a") 0 (by decide),
    c7_weighted_pick.2.2 [trA, trB, trC] (some "a") (5 / 2) (by decide)
      (by norm_num)
      (by
        have hf : ([trA, trB, trC] : List Track).filter
            (fun t => decide (some t.id ≠ some "a")) = [trB, trC] := by decide
        rw [hf]
        norm_num [totalWeight_cons, totalWeight, getWeight, trB, trC])⟩

end AudioReplayer
